import Mathlib

/-!
Shallow embedding of the leave-request / work-log server (`src/server/server.ts`).

The server is an Express application over SQLite.  We embed:
* the zod validation schemas (`createRequestSchema`, `updateStatusSchema`,
  `approveWithSignatureSchema`) as boolean field checks collecting field errors;
* the SQLite `requests` table as a list of records (`RequestStore`), where
  `SELECT ... WHERE requestId=?` is `List.find?`, `UPDATE ... WHERE requestId=?`
  is a conditional `List.map` (`updWhere`), `INSERT` is an append, the SQL TEXT
  comparison `>=` is byte/codepoint order on strings (`strLe`), and
  `ORDER BY dateRequested DESC` is a descending insertion sort;
* each route handler as a function from the authenticated user, the request
  payload and the store to a response together with the resulting store.
  Nondeterministic inputs of the handler (the generated id, the current time)
  are passed as explicit parameters.

JavaScript `new Date(s).getTime()` on a `YYYY-MM-DD` string is modelled by
`parseJsDate`, which yields `none` exactly when JS yields an invalid date
(`NaN` time); on valid dates it yields the number of days since 0000-01-01 in
the proleptic Gregorian calendar (ECMA-262 admits years 0000–9999, year 0
being a leap year), an affine image of the JS millisecond timestamp on that
whole domain, so all `getTime` comparisons are preserved.
-/

namespace LeaveSys

/-- The four roles of the system (`type Role` in server.ts). -/
inductive Role
  | employee
  | manager
  | hr
  | admin
deriving DecidableEq, Repr

/-- Authenticated caller as produced by the `authRequired` middleware
(`interface AuthedUser { id; name; role }`). -/
structure AuthedUser where
  id : String
  name : String
  role : Role
deriving DecidableEq, Repr

/-- The `ensureRole(roles)` middleware: `roles.includes(req.user.role)`. -/
def ensureRole (roles : List Role) (u : AuthedUser) : Bool :=
  roles.contains u.role

/- ---------------- String order (SQLite TEXT comparison) ---------------- -/

/-- Lexicographic `≤` on character lists, by code point; models SQLite's
binary TEXT collation on the ASCII date strings used by the server. -/
def charListLe : List Char → List Char → Bool
  | [], _ => true
  | _ :: _, [] => false
  | a :: as, b :: bs =>
    if a < b then true
    else if b < a then false
    else charListLe as bs

/-- String `≤` used for the SQL comparison `dateRequested >= ?`. -/
def strLe (a b : String) : Bool :=
  charListLe a.data b.data

/- ---------------- Date parsing (JS Date semantics) ---------------- -/

/-- The regex `^\d{4}-\d{2}-\d{2}$` of `createRequestSchema`. -/
def matchesDateRegex (s : String) : Bool :=
  match s.data with
  | [y1, y2, y3, y4, h1, m1, m2, h2, d1, d2] =>
    y1.isDigit && y2.isDigit && y3.isDigit && y4.isDigit && h1 == '-' &&
    m1.isDigit && m2.isDigit && h2 == '-' && d1.isDigit && d2.isDigit
  | _ => false

/-- Numeric value of a list of decimal digit characters. -/
def digitsVal (cs : List Char) : Nat :=
  cs.foldl (fun acc c => 10 * acc + (c.toNat - 48)) 0

/-- Gregorian leap-year rule (as used by the JS `Date` calendar). -/
def isLeapYear (y : Nat) : Bool :=
  (y % 4 == 0 && y % 100 != 0) || y % 400 == 0

/-- Number of days of month `m` in year `y`. -/
def daysInMonth (y m : Nat) : Nat :=
  if m == 2 then (if isLeapYear y then 29 else 28)
  else if m == 4 || m == 6 || m == 9 || m == 11 then 30
  else 31

/-- Number of days from 0000-01-01 to the start of year `y` in the proleptic
Gregorian calendar used by JS `Date` (ECMA-262 admits years 0000–9999 in the
date string format; year 0 is a leap year): 365 per elapsed year plus one per
leap year among `0, …, y-1` — and the leap years in that range number
`(y-1)/4 - (y-1)/100 + (y-1)/400 + 1` when `y ≥ 1`, the `+ 1` accounting for
year 0 itself. -/
def daysBeforeYear (y : Nat) : Nat :=
  if y = 0 then 0
  else 365 * y + ((y - 1) / 4 - (y - 1) / 100 + (y - 1) / 400 + 1)

/-- Days in year `y` before month `m`. -/
def daysBeforeMonth (y m : Nat) : Nat :=
  ((List.range (m - 1)).map (fun i => daysInMonth y (i + 1))).sum

/-- Day number of the calendar date `y-m-d`, counted from 0000-01-01; on the
whole regex-admitted domain (years 0000–9999) it is strictly monotone in
calendar order, hence an affine image of the JS millisecond timestamp, so
comparisons agree with JS `getTime()` comparisons. -/
def toDayNumber (y m d : Nat) : Nat :=
  daysBeforeYear y + daysBeforeMonth y m + (d - 1)

/-- JS `new Date(s)` for a string `s`: `some` day number when `s` is a
well-formed `YYYY-MM-DD` calendar date, `none` when JS would produce an
invalid date (time `NaN`). -/
def parseJsDate (s : String) : Option Nat :=
  match s.data with
  | [y1, y2, y3, y4, h1, mo1, mo2, h2, d1, d2] =>
    if y1.isDigit && y2.isDigit && y3.isDigit && y4.isDigit && h1 == '-' &&
       mo1.isDigit && mo2.isDigit && h2 == '-' && d1.isDigit && d2.isDigit then
      let y := digitsVal [y1, y2, y3, y4]
      let m := digitsVal [mo1, mo2]
      let d := digitsVal [d1, d2]
      if 1 ≤ m && m ≤ 12 && 1 ≤ d && d ≤ daysInMonth y m then
        some (toDayNumber y m d)
      else none
    else none
  | _ => none

/-- The `.refine` of `createRequestSchema`:
`new Date(v.endDate).getTime() >= new Date(v.startDate).getTime()`.
A `NaN` operand makes the JS comparison false, hence the `none` cases. -/
def jsEndAfterStart (startDate endDate : String) : Bool :=
  match parseJsDate endDate, parseJsDate startDate with
  | some e, some s => decide (s ≤ e)
  | _, _ => false

/- ---------------- Remaining zod field checks ---------------- -/

/-- The JS regex class `\s` (ECMA-262 WhiteSpace ∪ LineTerminator): TAB, LF,
VT, FF, CR, SP, NBSP, LS, PS, ZWNBSP and the Unicode space separators
U+1680, U+2000–U+200A, U+202F, U+205F, U+3000. -/
def isJsWhitespace (c : Char) : Bool :=
  c.toNat == 9 || c.toNat == 10 || c.toNat == 11 || c.toNat == 12 ||
  c.toNat == 13 || c.toNat == 32 || c.toNat == 0xa0 || c.toNat == 0x1680 ||
  (0x2000 ≤ c.toNat && c.toNat ≤ 0x200a) || c.toNat == 0x2028 ||
  c.toNat == 0x2029 || c.toNat == 0x202f || c.toNat == 0x205f ||
  c.toNat == 0x3000 || c.toNat == 0xfeff

/-- Characters allowed by `phoneRegex = /^[0-9\-\s()+]{7,20}$/`. -/
def isPhoneChar (c : Char) : Bool :=
  c.isDigit || c == '-' || isJsWhitespace c || c == '(' || c == ')' || c == '+'

/-- `phoneRegex` for the `contact` field. -/
def matchesPhoneRegex (s : String) : Bool :=
  7 ≤ s.length && s.length ≤ 20 && s.data.all isPhoneChar

/-- Boolean test that `p` is an initial segment of `s` (for anchored regexes). -/
def listHeadMatches : List Char → List Char → Bool
  | [], _ => true
  | _ :: _, [] => false
  | a :: as, b :: bs => a == b && listHeadMatches as bs

/-- The signature regex `^data:image\/(png|jpeg);base64,`. -/
def matchesSignatureRegex (s : String) : Bool :=
  listHeadMatches "data:image/png;base64,".data s.data ||
  listHeadMatches "data:image/jpeg;base64,".data s.data

/-- `z.string().min(1)`. -/
def minLen1 (s : String) : Bool :=
  1 ≤ s.length

/-- `LeaveTypeEnum = z.enum(['연차','반차','병가','경조사'])`. -/
def leaveTypeStrings : List String := ["연차", "반차", "병가", "경조사"]

/-- `StatusEnum = z.enum(['Pending','Approved','Rejected','Canceled'])`. -/
def statusStrings : List String := ["Pending", "Approved", "Rejected", "Canceled"]

/-- `DeptEnum = z.enum(['개발팀','생산지원팀','생산팀','공무팀'])`. -/
def deptStrings : List String := ["개발팀", "생산지원팀", "생산팀", "공무팀"]

/- ---------------- createRequestSchema ---------------- -/

/-- JSON body of `POST /api/requests`.  `note` and `status` are optional with
zod defaults; all other fields are required strings of the schema. -/
structure CreateRequestInput where
  dateRequested : String
  empId : String
  name : String
  dept : String
  position : String
  leaveType : String
  startDate : String
  endDate : String
  note : Option String
  handoverPerson : String
  contact : String
  status : Option String
  signatureDataUrl : String
deriving DecidableEq, Repr

/-- Result of a successful `createRequestSchema.safeParse` (defaults applied). -/
structure CreateRequestData where
  dateRequested : String
  empId : String
  name : String
  dept : String
  position : String
  leaveType : String
  startDate : String
  endDate : String
  note : String
  handoverPerson : String
  contact : String
  status : String
  signatureDataUrl : String
deriving DecidableEq, Repr

/-- Names of the fields violating their per-field constraint in
`createRequestSchema` (zod reports all of them at once). -/
def createBaseFieldErrors (i : CreateRequestInput) : List String :=
  (if matchesDateRegex i.dateRequested then [] else ["dateRequested"]) ++
  (if minLen1 i.empId then [] else ["empId"]) ++
  (if minLen1 i.name then [] else ["name"]) ++
  (if deptStrings.contains i.dept then [] else ["dept"]) ++
  (if minLen1 i.position then [] else ["position"]) ++
  (if leaveTypeStrings.contains i.leaveType then [] else ["leaveType"]) ++
  (if matchesDateRegex i.startDate then [] else ["startDate"]) ++
  (if matchesDateRegex i.endDate then [] else ["endDate"]) ++
  (if minLen1 i.handoverPerson then [] else ["handoverPerson"]) ++
  (if matchesPhoneRegex i.contact then [] else ["contact"]) ++
  (match i.status with
   | none => []
   | some s => if statusStrings.contains s then [] else ["status"]) ++
  (if matchesSignatureRegex i.signatureDataUrl then [] else ["signatureDataUrl"])

/-- `createRequestSchema.safeParse`: collect all base field errors; only when
the base object parses does the `.refine` (end date after start date) run,
contributing a field error at path `endDate`. -/
def validateCreateRequest (i : CreateRequestInput) :
    Except (List String) CreateRequestData :=
  if (createBaseFieldErrors i).isEmpty then
    if jsEndAfterStart i.startDate i.endDate then
      .ok { dateRequested := i.dateRequested, empId := i.empId, name := i.name,
            dept := i.dept, position := i.position, leaveType := i.leaveType,
            startDate := i.startDate, endDate := i.endDate,
            note := i.note.getD "", handoverPerson := i.handoverPerson,
            contact := i.contact, status := i.status.getD "Pending",
            signatureDataUrl := i.signatureDataUrl }
    else .error ["endDate"]
  else .error (createBaseFieldErrors i)

/- ---------------- The requests table ---------------- -/

/-- A row of the SQLite `requests` table.  The columns added by migration
(`handoverPerson`, `contact`, `signature`, `managerSignature`,
`managerSignerId`, `managerSignedAt`, `requesterId`) and `note` are nullable
TEXT, hence `Option String`. -/
structure LeaveRequestRec where
  requestId : String
  dateRequested : String
  empId : String
  name : String
  dept : String
  position : String
  leaveType : String
  startDate : String
  endDate : String
  note : Option String
  status : String
  signature : Option String
  handoverPerson : Option String
  contact : Option String
  managerSignature : Option String
  managerSignerId : Option String
  managerSignedAt : Option String
  requesterId : Option String
deriving DecidableEq, Repr

/-- The `requests` table contents. -/
abbrev RequestStore := List LeaveRequestRec

/-- `SELECT * FROM requests WHERE requestId=?` followed by `.get` — the first
matching row, if any. -/
def findReq (store : RequestStore) (id : String) : Option LeaveRequestRec :=
  store.find? (fun r => r.requestId == id)

/-- `UPDATE requests SET ... WHERE requestId=?`: rewrite every row whose
`requestId` matches, leave all other rows untouched. -/
def updWhere (id : String) (g : LeaveRequestRec → LeaveRequestRec)
    (store : RequestStore) : RequestStore :=
  store.map fun x => if x.requestId == id then g x else x

/-- Descending insertion step for `ORDER BY dateRequested DESC`. -/
def insertByDateDesc (r : LeaveRequestRec) :
    List LeaveRequestRec → List LeaveRequestRec
  | [] => [r]
  | x :: xs =>
    if strLe x.dateRequested r.dateRequested then r :: x :: xs
    else x :: insertByDateDesc r xs

/-- `ORDER BY dateRequested DESC` as an insertion sort. -/
def sortByDateDesc : List LeaveRequestRec → List LeaveRequestRec
  | [] => []
  | x :: xs => insertByDateDesc x (sortByDateDesc xs)

/- ---------------- Responses ---------------- -/

/-- Responses of the leave-request routes: HTTP 403, 400 (with the zod field
error paths when the handler reports them), 404, 409, 201, 200 with a single
row (`data` may be `undefined` if the re-read finds no row), 200 with rows. -/
inductive LeaveResp
  | forbidden
  | badRequest (fields : List String)
  | notFound
  | conflict
  | created (r : Option LeaveRequestRec)
  | okRec (r : Option LeaveRequestRec)
  | okList (rs : List LeaveRequestRec)
deriving DecidableEq, Repr

/- ---------------- Route handlers ---------------- -/

/-- The row inserted by `POST /api/requests` from validated data `d`,
generated id `fid` and caller `u`: the INSERT binds exactly these columns
and leaves the three manager columns NULL. -/
def mkStoredRec (u : AuthedUser) (fid : String) (d : CreateRequestData) :
    LeaveRequestRec :=
  { requestId := fid, dateRequested := d.dateRequested, empId := d.empId,
    name := d.name, dept := d.dept, position := d.position,
    leaveType := d.leaveType, startDate := d.startDate, endDate := d.endDate,
    note := some d.note, status := d.status,
    signature := some d.signatureDataUrl,
    handoverPerson := some d.handoverPerson, contact := some d.contact,
    managerSignature := none, managerSignerId := none, managerSignedAt := none,
    requesterId := some u.id }

/-- `POST /api/requests` (Submit): `ensureRole(['employee','admin'])`, zod
validation, INSERT with a fresh `requestId` and `requesterId = req.user.id`,
then re-read of the inserted row. -/
def postRequests (u : AuthedUser) (body : CreateRequestInput) (freshId : String)
    (store : RequestStore) : LeaveResp × RequestStore :=
  if ensureRole [Role.employee, Role.admin] u then
    match validateCreateRequest body with
    | .error fs => (.badRequest fs, store)
    | .ok d =>
      let newStore := store ++ [mkStoredRec u freshId d]
      (.created (findReq newStore freshId), newStore)
  else (.forbidden, store)

/-- `GET /api/requests/mine` (ListMine):
`SELECT * FROM requests WHERE requesterId = ? ORDER BY dateRequested DESC`
with the authenticated user's id. -/
def getRequestsMine (u : AuthedUser) (store : RequestStore) : LeaveResp :=
  .okList (sortByDateDesc (store.filter (fun r => r.requesterId == some u.id)))

/-- `PUT /api/requests/:id/status` (UpdateStatus):
`ensureRole(['manager','admin'])`, `updateStatusSchema` parse, existence
check, unconditional `UPDATE requests SET status=?`, re-read. -/
def putRequestStatus (u : AuthedUser) (id : String) (body : Option String)
    (store : RequestStore) : LeaveResp × RequestStore :=
  if ensureRole [Role.manager, Role.admin] u then
    match body with
    | some s =>
      if statusStrings.contains s then
        match findReq store id with
        | none => (.notFound, store)
        | some _ =>
          let newStore := updWhere id (fun x => { x with status := s }) store
          (.okRec (findReq newStore id), newStore)
      else (.badRequest ["status"], store)
    | none => (.badRequest ["status"], store)
  else (.forbidden, store)

/-- `POST /api/requests/:id/approve` (ApproveWithSignature):
`ensureRole(['manager','admin'])`, `approveWithSignatureSchema` parse,
existence check, `409` when the row is already `Approved`, otherwise
`UPDATE` setting status and the three manager columns together, re-read. -/
def postRequestApprove (u : AuthedUser) (id : String) (body : Option String)
    (nowTs : String) (store : RequestStore) : LeaveResp × RequestStore :=
  if ensureRole [Role.manager, Role.admin] u then
    match body with
    | some sig =>
      if matchesSignatureRegex sig then
        match findReq store id with
        | none => (.notFound, store)
        | some r0 =>
          if r0.status == "Approved" then (.conflict, store)
          else
            let newStore := updWhere id (fun x =>
              { x with status := "Approved", managerSignature := some sig,
                       managerSignerId := some u.id,
                       managerSignedAt := some nowTs }) store
            (.okRec (findReq newStore id), newStore)
      else (.badRequest ["signatureDataUrl"], store)
    | none => (.badRequest ["signatureDataUrl"], store)
  else (.forbidden, store)

/- ---------------- ListRecent and its cut date ---------------- -/

/-- A calendar date, the model of the JS `Date` value `now`. -/
structure CivilDate where
  year : Nat
  month : Nat
  day : Nat
deriving DecidableEq, Repr

/-- `String(n).padStart(2,'0')`. -/
def pad2 (n : Nat) : String :=
  if n < 10 then "0" ++ toString n else toString n

/-- The template literal producing the cut string:
`year-MM-DD` with two-digit month and day. -/
def fmtDate (d : CivilDate) : String :=
  toString d.year ++ "-" ++ pad2 d.month ++ "-" ++ pad2 d.day

/-- `cut.setMonth(cut.getMonth()-1)` of JS: move to the previous month keeping
the day of month, normalizing an overflowing day forward into the next month
(e.g. March 31 becomes February 31, normalized to March 3). -/
def jsOneMonthBack (d : CivilDate) : CivilDate :=
  let ym : Nat × Nat :=
    if d.month == 1 then (d.year - 1, 12) else (d.year, d.month - 1)
  if d.day ≤ daysInMonth ym.1 ym.2 then ⟨ym.1, ym.2, d.day⟩
  else
    let d2 := d.day - daysInMonth ym.1 ym.2
    if ym.2 == 12 then ⟨ym.1 + 1, 1, d2⟩ else ⟨ym.1, ym.2 + 1, d2⟩

/-- `GET /api/requests/recent` (ListRecent):
`ensureRole(['manager','hr','admin'])`, then
`SELECT * FROM requests WHERE dateRequested >= ? ORDER BY dateRequested DESC`
with the cut string one JS month back from `now`. -/
def getRequestsRecent (u : AuthedUser) (now : CivilDate)
    (store : RequestStore) : LeaveResp :=
  if ensureRole [Role.manager, Role.hr, Role.admin] u then
    let cutStr := fmtDate (jsOneMonthBack now)
    .okList (sortByDateDesc (store.filter (fun r => strLe cutStr r.dateRequested)))
  else .forbidden

/-- Follows the spec words of C9, for comparison with `getRequestsRecent`:
a `dateRequested` "falls within the last calendar month (one month back from
now, same-day boundary, inclusive)" when it lies between the one-month-back
cut date and `now`, both inclusive. -/
def specWithinLastMonth (now : CivilDate) (dr : String) : Bool :=
  strLe (fmtDate (jsOneMonthBack now)) dr && strLe dr (fmtDate now)

/- ---------------- Work logs ---------------- -/

/-- A row of the `worklogs` table. -/
structure WorklogRec where
  id : String
  uploaderId : String
  fileName : String
  filePath : String
  signature : String
  status : String
  createdAt : String
deriving DecidableEq, Repr

/-- The multipart file part as multer hands it to the route
(`originalname` from the client, `filename` assigned on disk). -/
structure UploadedFile where
  originalname : String
  filename : String
deriving DecidableEq, Repr

/-- Blob store (files on disk under the worklog folder, by stored filename)
together with the `worklogs` table. -/
structure WorklogState where
  blobs : List String
  rows : List WorklogRec
deriving DecidableEq, Repr

/-- Responses of `POST /api/worklogs`. -/
inductive WorklogResp
  | badRequest (msg : String)
  | created (id : String) (filePath : String)
deriving DecidableEq, Repr

/-- `POST /api/worklogs` (Upload) including the `upload.single('file')`
middleware: multer writes the blob to disk BEFORE the handler runs, then the
handler checks the file part, checks the signature regex against
`signatureDataUrl || ''`, and only then inserts the row. -/
def postWorklogs (u : AuthedUser) (file : Option UploadedFile)
    (signatureDataUrl : Option String) (freshId nowIso : String)
    (st : WorklogState) : WorklogResp × WorklogState :=
  let st1 :=
    match file with
    | some f => { st with blobs := st.blobs ++ [f.filename] }
    | none => st
  match file with
  | none => (.badRequest "파일이 필요합니다", st1)
  | some f =>
    if matchesSignatureRegex (signatureDataUrl.getD "") then
      let filePath := "worklogs/" ++ f.filename
      let row : WorklogRec :=
        { id := freshId, uploaderId := u.id,
          fileName := if f.originalname == "" then f.filename else f.originalname,
          filePath := filePath, signature := signatureDataUrl.getD "",
          status := "Pending", createdAt := nowIso }
      (.created freshId filePath, { st1 with rows := st1.rows ++ [row] })
    else (.badRequest "서명 데이터가 필요합니다", st1)

/- ---------------- Invariants ---------------- -/

/-- The §3 invariant of the spec on a store: the three manager (approver)
columns are unset on every row whose status is not `Approved`. -/
def ApproverFieldsInv (store : RequestStore) : Prop :=
  ∀ r ∈ store, r.status ≠ "Approved" →
    r.managerSignature = none ∧ r.managerSignerId = none ∧
    r.managerSignedAt = none

/- ---------------- Helper lemmas: role checks ---------------- -/

theorem ensureRole_mgr_admin {u : AuthedUser}
    (h : u.role = Role.manager ∨ u.role = Role.admin) :
    ensureRole [Role.manager, Role.admin] u = true := by
  unfold ensureRole
  rcases h with h | h <;> rw [h] <;> rfl

theorem ensureRole_mgr_admin_false {u : AuthedUser}
    (h : u.role = Role.employee ∨ u.role = Role.hr) :
    ensureRole [Role.manager, Role.admin] u = false := by
  unfold ensureRole
  rcases h with h | h <;> rw [h] <;> rfl

theorem ensureRole_emp_admin {u : AuthedUser}
    (h : u.role = Role.employee ∨ u.role = Role.admin) :
    ensureRole [Role.employee, Role.admin] u = true := by
  unfold ensureRole
  rcases h with h | h <;> rw [h] <;> rfl

theorem ensureRole_recent {u : AuthedUser}
    (h : u.role = Role.manager ∨ u.role = Role.hr ∨ u.role = Role.admin) :
    ensureRole [Role.manager, Role.hr, Role.admin] u = true := by
  unfold ensureRole
  rcases h with h | h | h <;> rw [h] <;> rfl

theorem ensureRole_recent_false {u : AuthedUser} (h : u.role = Role.employee) :
    ensureRole [Role.manager, Role.hr, Role.admin] u = false := by
  unfold ensureRole
  rw [h]
  rfl

/- ---------------- Helper lemmas: find? and update ---------------- -/

theorem findReq_updWhere (id : String) (g : LeaveRequestRec → LeaveRequestRec)
    (hg : ∀ x, (g x).requestId = x.requestId) {store : RequestStore}
    {r : LeaveRequestRec} (h : findReq store id = some r) :
    findReq (updWhere id g store) id = some (g r) := by
  induction store with
  | nil => simp [findReq] at h
  | cons x xs ih =>
    cases hx : (x.requestId == id) with
    | true =>
      have hr : x = r := by
        unfold findReq at h
        rw [List.find?_cons] at h
        rw [hx] at h
        exact Option.some.inj h
      subst hr
      unfold findReq updWhere
      rw [List.map_cons]
      have hcond : (if x.requestId == id then g x else x) = g x := if_pos hx
      rw [hcond, List.find?_cons]
      have hgid : ((g x).requestId == id) = true := by rw [hg x]; exact hx
      rw [hgid]
    | false =>
      have h2 : findReq xs id = some r := by
        unfold findReq at h ⊢
        rw [List.find?_cons] at h
        rw [hx] at h
        exact h
      have ih2 := ih h2
      unfold findReq updWhere at ih2 ⊢
      rw [List.map_cons]
      have hcond : (if x.requestId == id then g x else x) = x :=
        if_neg (by simp [hx])
      rw [hcond, List.find?_cons, hx]
      exact ih2

theorem findReq_append_of_none {store : RequestStore} {fid : String}
    (h : findReq store fid = none) (x : LeaveRequestRec)
    (hx : (x.requestId == fid) = true) :
    findReq (store ++ [x]) fid = some x := by
  unfold findReq at h ⊢
  rw [List.find?_append, h, Option.none_or]
  exact List.find?_cons_of_pos _ hx

/- ---------------- Helper lemmas: string order ---------------- -/

theorem charListLe_total (x : List Char) :
    ∀ y, charListLe x y = true ∨ charListLe y x = true := by
  induction x with
  | nil => intro y; left; rfl
  | cons a as ih =>
    intro y
    cases y with
    | nil => right; rfl
    | cons b bs =>
      by_cases hab : a < b
      · left; simp [charListLe, hab]
      · by_cases hba : b < a
        · right; simp [charListLe, hba]
        · rcases ih bs with h | h
          · left; simp [charListLe, hab, hba, h]
          · right; simp [charListLe, hab, hba, h]

theorem charListLe_trans :
    ∀ (x y z : List Char), charListLe x y = true → charListLe y z = true →
      charListLe x z = true := by
  intro x
  induction x with
  | nil => intro y z h1 h2; rfl
  | cons a as ih =>
    intro y z h1 h2
    cases y with
    | nil => simp [charListLe] at h1
    | cons b bs =>
      cases z with
      | nil => simp [charListLe] at h2
      | cons c cs =>
        simp only [charListLe] at h1 h2 ⊢
        by_cases hab : a < b
        · by_cases hbc : b < c
          · simp [lt_trans hab hbc]
          · by_cases hcb : c < b
            · simp [hbc, hcb] at h2
            · have hbceq : b = c := le_antisymm (not_lt.mp hcb) (not_lt.mp hbc)
              simp [show a < c from hbceq ▸ hab]
        · by_cases hba : b < a
          · simp [hab, hba] at h1
          · have habeq : a = b := le_antisymm (not_lt.mp hba) (not_lt.mp hab)
            simp [hab, hba] at h1
            by_cases hbc : b < c
            · simp [show a < c from habeq ▸ hbc]
            · by_cases hcb : c < b
              · simp [hbc, hcb] at h2
              · have hbceq : b = c := le_antisymm (not_lt.mp hcb) (not_lt.mp hbc)
                have hac : ¬ a < c := by rw [habeq, hbceq]; exact lt_irrefl c
                have hca : ¬ c < a := by rw [habeq, hbceq]; exact lt_irrefl c
                simp [hbc, hcb] at h2
                simp [hac, hca]
                exact ih bs cs h1 h2

theorem strLe_total (a b : String) : strLe a b = true ∨ strLe b a = true :=
  charListLe_total a.data b.data

theorem strLe_trans {a b c : String} (h1 : strLe a b = true)
    (h2 : strLe b c = true) : strLe a c = true :=
  charListLe_trans a.data b.data c.data h1 h2

/- ---------------- Helper lemmas: descending sort ---------------- -/

/-- Descending comparison used by the `ORDER BY dateRequested DESC` model. -/
def DateGe (a b : LeaveRequestRec) : Prop :=
  strLe b.dateRequested a.dateRequested = true

theorem mem_insertByDateDesc {a r : LeaveRequestRec}
    {l : List LeaveRequestRec} :
    a ∈ insertByDateDesc r l ↔ a = r ∨ a ∈ l := by
  induction l with
  | nil => simp [insertByDateDesc]
  | cons x xs ih =>
    simp only [insertByDateDesc]
    split
    · simp [List.mem_cons]
    · simp only [List.mem_cons, ih]
      tauto

theorem mem_sortByDateDesc {a : LeaveRequestRec} {l : List LeaveRequestRec} :
    a ∈ sortByDateDesc l ↔ a ∈ l := by
  induction l with
  | nil => simp [sortByDateDesc]
  | cons x xs ih =>
    simp only [sortByDateDesc, mem_insertByDateDesc, ih, List.mem_cons]

theorem pairwise_insertByDateDesc {r : LeaveRequestRec}
    {l : List LeaveRequestRec} (h : List.Pairwise DateGe l) :
    List.Pairwise DateGe (insertByDateDesc r l) := by
  induction l with
  | nil => simp [insertByDateDesc, List.pairwise_singleton]
  | cons x xs ih =>
    rcases List.pairwise_cons.mp h with ⟨hx, hxs⟩
    simp only [insertByDateDesc]
    split
    case isTrue hle =>
      refine List.pairwise_cons.mpr ⟨?_, h⟩
      intro b hb
      rcases List.mem_cons.mp hb with hb | hb
      · rw [hb]; exact hle
      · exact strLe_trans (hx b hb) hle
    case isFalse hle =>
      refine List.pairwise_cons.mpr ⟨?_, ih hxs⟩
      intro b hb
      rcases mem_insertByDateDesc.mp hb with hb | hb
      · rw [hb]
        rcases strLe_total x.dateRequested r.dateRequested with hq | hq
        · exact absurd hq hle
        · exact hq
      · exact hx b hb

theorem pairwise_sortByDateDesc (l : List LeaveRequestRec) :
    List.Pairwise DateGe (sortByDateDesc l) := by
  induction l with
  | nil => simp [sortByDateDesc]
  | cons x xs ih => exact pairwise_insertByDateDesc ih

/- ---------------- Sample data for witnesses and counterexamples ---------------- -/

/-- A concrete employee caller. -/
def empUser : AuthedUser := { id := "e1", name := "이사원", role := Role.employee }

/-- A concrete manager caller. -/
def mgrUser : AuthedUser := { id := "m1", name := "홍팀장", role := Role.manager }

/-- A concrete hr caller. -/
def hrUser : AuthedUser := { id := "h1", name := "김인사", role := Role.hr }

/-- A stored leave request in state `Pending`, owned by `empUser`. -/
def pendingRec : LeaveRequestRec :=
  { requestId := "r1", dateRequested := "2025-06-01", empId := "E0001",
    name := "이사원", dept := "개발팀", position := "사원", leaveType := "연차",
    startDate := "2025-06-10", endDate := "2025-06-11", note := some "",
    status := "Pending", signature := some "data:image/png;base64,AAAA",
    handoverPerson := some "X", contact := some "010-1234-5678",
    managerSignature := none, managerSignerId := none, managerSignedAt := none,
    requesterId := some "e1" }

/-- A stored leave request owned by another user. -/
def otherRec : LeaveRequestRec :=
  { pendingRec with requestId := "r2", requesterId := some "e2",
                    dateRequested := "2025-06-02" }

/-- A valid `POST /api/requests` body that leaves `status` absent. -/
def validBody : CreateRequestInput :=
  { dateRequested := "2025-01-05", empId := "E0001", name := "이사원",
    dept := "개발팀", position := "사원", leaveType := "연차",
    startDate := "2025-01-10", endDate := "2025-01-12", note := none,
    handoverPerson := "X", contact := "010-1234-5678", status := none,
    signatureDataUrl := "data:image/png;base64,AAAA" }

/-- A stored leave request already in state `Approved`. -/
def approvedRec : LeaveRequestRec :=
  { pendingRec with
    requestId := "r5", status := "Approved",
    managerSignature := some "data:image/png;base64,BBBB",
    managerSignerId := some "m1", managerSignedAt := some "2025-06-14T09:00:00" }

/- ---------------- Claim theorems ---------------- -/

/-- C1: ApproveWithSignature is not idempotent.  For a manager-or-admin
caller with a well-formed signature payload, the call on a record whose
status is already `Approved` fails with `Conflict` and leaves the store
unchanged; the call on a `Pending` record succeeds and sets
`status = Approved`, the approver signature, the approver id (the caller's
id) and the approval timestamp, all in the same update. -/
theorem c1_approve_not_idempotent
    (u : AuthedUser) (h : u.role = Role.manager ∨ u.role = Role.admin)
    (id sig nowTs : String) (hsig : matchesSignatureRegex sig = true)
    (store : RequestStore) (r : LeaveRequestRec)
    (hfind : findReq store id = some r) :
    (r.status = "Approved" →
      postRequestApprove u id (some sig) nowTs store = (.conflict, store)) ∧
    (r.status = "Pending" →
      postRequestApprove u id (some sig) nowTs store =
        (.okRec (some { r with
                        status := "Approved",
                        managerSignature := some sig,
                        managerSignerId := some u.id,
                        managerSignedAt := some nowTs }),
         updWhere id (fun x =>
           { x with
             status := "Approved",
             managerSignature := some sig,
             managerSignerId := some u.id,
             managerSignedAt := some nowTs }) store)) := by
  have hrole := ensureRole_mgr_admin h
  constructor
  · intro hst
    simp [postRequestApprove, hrole, hsig, hfind, hst]
  · intro hst
    have hne : (r.status == "Approved") = false := by rw [hst]; rfl
    have hupd := findReq_updWhere id
      (fun x =>
        { x with
          status := "Approved",
          managerSignature := some sig,
          managerSignerId := some u.id,
          managerSignedAt := some nowTs }) (fun x => rfl) hfind
    simp [postRequestApprove, hrole, hsig, hfind, hne, hupd]

/-- Witness for C1: the manager approves the concrete pending request `r1`,
and approving the concrete already-approved request `r5` yields `Conflict`. -/
theorem c1_approve_not_idempotent_witness :
    postRequestApprove mgrUser "r5" (some "data:image/png;base64,CCCC")
      "2025-06-15T10:00:00" [approvedRec] = (.conflict, [approvedRec]) ∧
    postRequestApprove mgrUser "r1" (some "data:image/png;base64,CCCC")
      "2025-06-15T10:00:00" [pendingRec] =
      (.okRec (some { pendingRec with
                      status := "Approved",
                      managerSignature := some "data:image/png;base64,CCCC",
                      managerSignerId := some mgrUser.id,
                      managerSignedAt := some "2025-06-15T10:00:00" }),
       updWhere "r1" (fun x =>
         { x with
           status := "Approved",
           managerSignature := some "data:image/png;base64,CCCC",
           managerSignerId := some mgrUser.id,
           managerSignedAt := some "2025-06-15T10:00:00" })
         [pendingRec]) :=
  ⟨(c1_approve_not_idempotent mgrUser (Or.inl rfl) "r5"
      "data:image/png;base64,CCCC" "2025-06-15T10:00:00" (by decide)
      [approvedRec] approvedRec rfl).1 rfl,
   (c1_approve_not_idempotent mgrUser (Or.inl rfl) "r1"
      "data:image/png;base64,CCCC" "2025-06-15T10:00:00" (by decide)
      [pendingRec] pendingRec rfl).2 rfl⟩

/-- C4: a caller whose authenticated role is employee or hr gets `Forbidden`
from both UpdateStatus and ApproveWithSignature for every payload, valid or
not, and the store is left unchanged — the role check runs before any
validation or storage access. -/
theorem c4_employee_hr_always_forbidden
    (u : AuthedUser) (h : u.role = Role.employee ∨ u.role = Role.hr)
    (id : String) (statusBody sigBody : Option String) (nowTs : String)
    (store : RequestStore) :
    putRequestStatus u id statusBody store = (.forbidden, store) ∧
    postRequestApprove u id sigBody nowTs store = (.forbidden, store) := by
  have hrole := ensureRole_mgr_admin_false h
  constructor
  · simp [putRequestStatus, hrole]
  · simp [postRequestApprove, hrole]

/-- Witness for C4: the concrete employee caller is rejected on both
endpoints, with an invalid status payload and a valid signature payload. -/
theorem c4_employee_hr_always_forbidden_witness :
    putRequestStatus empUser "r1" (some "NotAStatus") [pendingRec] =
      (.forbidden, [pendingRec]) ∧
    postRequestApprove empUser "r1" (some "data:image/png;base64,AAAA")
      "2025-06-15T10:00:00" [pendingRec] = (.forbidden, [pendingRec]) :=
  c4_employee_hr_always_forbidden empUser (Or.inl rfl) "r1"
    (some "NotAStatus") (some "data:image/png;base64,AAAA")
    "2025-06-15T10:00:00" [pendingRec]

/-- C5: every record returned by ListMine has `requesterId` equal to the
caller's id — records owned by other users (or rows with no owner) are
never returned, for every caller and every store. -/
theorem c5_listMine_isolation
    (u : AuthedUser) (store : RequestStore) (l : List LeaveRequestRec)
    (h : getRequestsMine u store = .okList l)
    (r : LeaveRequestRec) (hr : r ∈ l) :
    r.requesterId = some u.id := by
  unfold getRequestsMine at h
  have hl : sortByDateDesc (store.filter fun r => r.requesterId == some u.id)
      = l := by
    injection h
  rw [← hl] at hr
  have hmem := mem_sortByDateDesc.mp hr
  have hp := (List.mem_filter.mp hmem).2
  exact eq_of_beq hp

/-- Witness for C5: on a concrete store holding one record of the caller and
one of another user, the returned record is the caller's. -/
theorem c5_listMine_isolation_witness :
    pendingRec.requesterId = some empUser.id :=
  c5_listMine_isolation empUser [pendingRec, otherRec] [pendingRec] rfl
    pendingRec (List.mem_singleton.mpr rfl)

/-- C7: UpdateStatus and ApproveWithSignature on an id matching no stored
record — called by a manager-or-admin caller with a valid payload — both
fail with `NotFound` and leave the store unchanged. -/
theorem c7_missing_id_not_found
    (u : AuthedUser) (h : u.role = Role.manager ∨ u.role = Role.admin)
    (id : String) (store : RequestStore) (hmiss : findReq store id = none)
    (s : String) (hs : statusStrings.contains s = true)
    (sig : String) (hsig : matchesSignatureRegex sig = true) (nowTs : String) :
    putRequestStatus u id (some s) store = (.notFound, store) ∧
    postRequestApprove u id (some sig) nowTs store = (.notFound, store) := by
  have hrole := ensureRole_mgr_admin h
  have hsmem : s ∈ statusStrings := List.mem_of_elem_eq_true hs
  constructor
  · simp [putRequestStatus, hrole, hs, hsmem, hmiss]
  · simp [postRequestApprove, hrole, hsig, hmiss]

/-- Witness for C7 on a concrete store that does not contain id `zz`. -/
theorem c7_missing_id_not_found_witness :
    putRequestStatus mgrUser "zz" (some "Rejected") [pendingRec] =
      (.notFound, [pendingRec]) ∧
    postRequestApprove mgrUser "zz" (some "data:image/png;base64,AAAA")
      "2025-06-15T10:00:00" [pendingRec] = (.notFound, [pendingRec]) :=
  c7_missing_id_not_found mgrUser (Or.inl rfl) "zz" [pendingRec] rfl
    "Rejected" (by decide) "data:image/png;base64,AAAA" (by decide)
    "2025-06-15T10:00:00"

/-- C10: a successful UpdateStatus changes exactly the `status` field of the
rows matching the given id: the result store is the pointwise update that
rewrites only `status` on matching rows, the response carries the found
record with only `status` changed, and every non-matching record is kept in
the store unchanged. -/
theorem c10_updateStatus_frame
    (u : AuthedUser) (h : u.role = Role.manager ∨ u.role = Role.admin)
    (id s : String) (hs : statusStrings.contains s = true)
    (store : RequestStore) (r : LeaveRequestRec)
    (hfind : findReq store id = some r) :
    putRequestStatus u id (some s) store =
      (.okRec (some { r with status := s }),
       updWhere id (fun x => { x with status := s }) store) ∧
    (∀ x ∈ store, x.requestId ≠ id →
      x ∈ updWhere id (fun x => { x with status := s }) store) ∧
    (∀ x ∈ store, x.requestId = id →
      { x with status := s } ∈ updWhere id (fun x => { x with status := s }) store) := by
  have hrole := ensureRole_mgr_admin h
  have hsmem : s ∈ statusStrings := List.mem_of_elem_eq_true hs
  have hupd := findReq_updWhere id (fun x => { x with status := s })
    (fun x => rfl) hfind
  refine ⟨?_, ?_, ?_⟩
  · simp [putRequestStatus, hrole, hs, hsmem, hfind, hupd]
  · intro x hx hne
    have hb : ¬ ((x.requestId == id) = true) := fun hc => hne (eq_of_beq hc)
    have hcond : (if x.requestId == id then { x with status := s } else x) = x :=
      if_neg hb
    unfold updWhere
    exact hcond ▸ List.mem_map_of_mem _ hx
  · intro x hx heq
    have hb : (x.requestId == id) = true := beq_iff_eq.mpr heq
    have hcond : (if x.requestId == id then { x with status := s } else x) =
        { x with status := s } := if_pos hb
    unfold updWhere
    exact hcond ▸ List.mem_map_of_mem _ hx

/-- Witness for C10 on a concrete two-record store: `r1` is rejected, `r2`
(owned by someone else) is untouched. -/
theorem c10_updateStatus_frame_witness :
    putRequestStatus mgrUser "r1" (some "Rejected") [pendingRec, otherRec] =
      (.okRec (some { pendingRec with status := "Rejected" }),
       updWhere "r1" (fun x => { x with status := "Rejected" })
         [pendingRec, otherRec]) ∧
    (∀ x ∈ [pendingRec, otherRec], x.requestId ≠ "r1" →
      x ∈ updWhere "r1" (fun x => { x with status := "Rejected" })
        [pendingRec, otherRec]) ∧
    (∀ x ∈ [pendingRec, otherRec], x.requestId = "r1" →
      { x with status := "Rejected" } ∈
        updWhere "r1" (fun x => { x with status := "Rejected" })
          [pendingRec, otherRec]) :=
  c10_updateStatus_frame mgrUser (Or.inl rfl) "r1" "Rejected" (by decide)
    [pendingRec, otherRec] pendingRec rfl

/- ---------------- C2: approver-fields invariant ---------------- -/

/-- C2 counterexample: the generic UpdateStatus can make a record's status
become `Approved` without setting any of the three approver fields — on the
concrete store holding the pending request `r1`, the manager's
`PUT /api/requests/r1/status` with body `Approved` yields a store whose
record has `status = Approved` and all three manager columns still NULL,
refuting "every operation that makes status become Approved sets all three
together". -/
theorem c2_counterexample :
    (putRequestStatus mgrUser "r1" (some "Approved") [pendingRec]).2 =
      [{ pendingRec with status := "Approved" }] ∧
    ({ pendingRec with status := "Approved" }).status = "Approved" ∧
    ({ pendingRec with status := "Approved" }).managerSignature = none ∧
    ({ pendingRec with status := "Approved" }).managerSignerId = none ∧
    ({ pendingRec with status := "Approved" }).managerSignedAt = none :=
  ⟨rfl, rfl, rfl, rfl, rfl⟩

/-- C2 amended: the invariant "approver signature, approver id and approval
timestamp are unset while status is not `Approved`" is preserved by Submit
and by ApproveWithSignature (and approval sets status together with all
three fields in the same update); it is the generic UpdateStatus path that
breaks the correspondence. -/
theorem c2_approver_fields_amended :
    (∀ (u : AuthedUser) (body : CreateRequestInput) (fid : String)
        (store : RequestStore), ApproverFieldsInv store →
        ApproverFieldsInv (postRequests u body fid store).2) ∧
    (∀ (u : AuthedUser) (id : String) (body : Option String) (nowTs : String)
        (store : RequestStore), ApproverFieldsInv store →
        ApproverFieldsInv (postRequestApprove u id body nowTs store).2) ∧
    (∀ (u : AuthedUser) (id sig nowTs : String) (store : RequestStore)
        (r2 : LeaveRequestRec),
        (postRequestApprove u id (some sig) nowTs store).1 =
          .okRec (some r2) →
        r2.status = "Approved" ∧ r2.managerSignature = some sig ∧
        r2.managerSignerId = some u.id ∧ r2.managerSignedAt = some nowTs) := by
  refine ⟨?_, ?_, ?_⟩
  · intro u body fid store hInv
    unfold postRequests
    by_cases hrole : ensureRole [Role.employee, Role.admin] u = true
    · rw [if_pos hrole]
      cases hval : validateCreateRequest body with
      | error fs => exact hInv
      | ok d =>
        unfold ApproverFieldsInv
        intro r hr hstat
        rcases List.mem_append.mp hr with hr | hr
        · exact hInv r hr hstat
        · have hr2 : r = mkStoredRec u fid d := List.mem_singleton.mp hr
          rw [hr2]
          exact ⟨rfl, rfl, rfl⟩
    · rw [if_neg hrole]
      exact hInv
  · intro u id body nowTs store hInv
    cases hrole : ensureRole [Role.manager, Role.admin] u with
    | false =>
      have : postRequestApprove u id body nowTs store = (.forbidden, store) := by
        simp [postRequestApprove, hrole]
      rw [this]
      exact hInv
    | true =>
      cases body with
      | none =>
        have : postRequestApprove u id none nowTs store =
            (.badRequest ["signatureDataUrl"], store) := by
          simp [postRequestApprove, hrole]
        rw [this]
        exact hInv
      | some sig =>
        cases hsig : matchesSignatureRegex sig with
        | false =>
          have : postRequestApprove u id (some sig) nowTs store =
              (.badRequest ["signatureDataUrl"], store) := by
            simp [postRequestApprove, hrole, hsig]
          rw [this]
          exact hInv
        | true =>
          cases hfind : findReq store id with
          | none =>
            have : postRequestApprove u id (some sig) nowTs store =
                (.notFound, store) := by
              simp [postRequestApprove, hrole, hsig, hfind]
            rw [this]
            exact hInv
          | some r0 =>
            cases hst : r0.status == "Approved" with
            | true =>
              have : postRequestApprove u id (some sig) nowTs store =
                  (.conflict, store) := by
                simp [postRequestApprove, hrole, hsig, hfind, hst]
              rw [this]
              exact hInv
            | false =>
              have hred : (postRequestApprove u id (some sig) nowTs store).2 =
                  updWhere id (fun x =>
                    { x with
                      status := "Approved",
                      managerSignature := some sig,
                      managerSignerId := some u.id,
                      managerSignedAt := some nowTs }) store := by
                simp [postRequestApprove, hrole, hsig, hfind, hst, updWhere]
              rw [hred]
              unfold ApproverFieldsInv updWhere
              intro r hr hstat
              rcases List.mem_map.mp hr with ⟨x, hx, hxr⟩
              split at hxr
              · exfalso
                apply hstat
                rw [← hxr]
              · exact hInv r (hxr ▸ hx) hstat
  · intro u id sig nowTs store r2 hresp
    cases hrole : ensureRole [Role.manager, Role.admin] u with
    | false => simp [postRequestApprove, hrole] at hresp
    | true =>
      cases hsig : matchesSignatureRegex sig with
      | false => simp [postRequestApprove, hrole, hsig] at hresp
      | true =>
        cases hfind : findReq store id with
        | none => simp [postRequestApprove, hrole, hsig, hfind] at hresp
        | some r0 =>
          cases hst : r0.status == "Approved" with
          | true => simp [postRequestApprove, hrole, hsig, hfind, hst] at hresp
          | false =>
            have hupd := findReq_updWhere id (fun x =>
              { x with
                status := "Approved",
                managerSignature := some sig,
                managerSignerId := some u.id,
                managerSignedAt := some nowTs }) (fun x => rfl) hfind
            simp [postRequestApprove, hrole, hsig, hfind, hst, hupd] at hresp
            rw [← hresp]
            exact ⟨rfl, rfl, rfl, rfl⟩

/-- Witness for the C2 amended theorem: submitting the concrete valid body
into the empty store (which trivially satisfies the invariant) yields a
store satisfying the invariant. -/
theorem c2_approver_fields_amended_witness :
    ApproverFieldsInv ((postRequests empUser validBody "r9" []).2) :=
  c2_approver_fields_amended.1 empUser validBody "r9" []
    (fun r hr => absurd hr (List.not_mem_nil r))

/- ---------------- C3: Submit binds id, requester and status ---------------- -/

/-- A valid `POST /api/requests` body that carries `status := "Approved"`. -/
def approvedStatusBody : CreateRequestInput :=
  { validBody with status := some "Approved" }

/-- C3 counterexample: Submit accepts a client payload carrying
`status = "Approved"` (it is a valid member of the status enum with zod
default `Pending` applied only when absent) and stores and returns the
record with that status, not `Pending` — refuting "status = Pending
regardless of any status value present in the client payload". -/
theorem c3_counterexample :
    (postRequests empUser approvedStatusBody "r2" []).2.map
        (fun r => r.status) = ["Approved"] ∧
    (match (postRequests empUser approvedStatusBody "r2" []).1 with
     | LeaveResp.created (some r) => r.status
     | _ => "") = "Approved" ∧
    "Approved" ≠ "Pending" :=
  ⟨rfl, rfl, by decide⟩

/-- C3 amended: for every payload accepted by Submit from an
employee-or-admin caller, the stored and returned record carries the freshly
generated `requestId`, `requesterId` equal to the authenticated caller's id
(never a client-supplied value), and `status` equal to the client payload's
status when present, defaulting to `Pending` when absent. -/
theorem c3_submit_binds_id_requester_status
    (u : AuthedUser) (h : u.role = Role.employee ∨ u.role = Role.admin)
    (body : CreateRequestInput) (fid : String) (store : RequestStore)
    (hfresh : findReq store fid = none)
    (d : CreateRequestData) (hval : validateCreateRequest body = .ok d) :
    postRequests u body fid store =
      (.created (some (mkStoredRec u fid d)), store ++ [mkStoredRec u fid d]) ∧
    (mkStoredRec u fid d).requestId = fid ∧
    (mkStoredRec u fid d).requesterId = some u.id ∧
    (mkStoredRec u fid d).status = body.status.getD "Pending" := by
  have hrole := ensureRole_emp_admin h
  have hstat : d.status = body.status.getD "Pending" := by
    unfold validateCreateRequest at hval
    split at hval
    · split at hval
      · injection hval with h2
        rw [← h2]
      · exact Except.noConfusion hval
    · exact Except.noConfusion hval
  have hid : ((mkStoredRec u fid d).requestId == fid) = true := by
    simp [mkStoredRec]
  have happ := findReq_append_of_none hfresh (mkStoredRec u fid d) hid
  refine ⟨?_, rfl, rfl, hstat⟩
  simp [postRequests, hrole, hval, happ]

/-- The validated data of `validBody` (defaults applied). -/
def validData : CreateRequestData :=
  { dateRequested := "2025-01-05", empId := "E0001", name := "이사원",
    dept := "개발팀", position := "사원", leaveType := "연차",
    startDate := "2025-01-10", endDate := "2025-01-12", note := "",
    handoverPerson := "X", contact := "010-1234-5678", status := "Pending",
    signatureDataUrl := "data:image/png;base64,AAAA" }

/-- Witness for the C3 amended theorem on the concrete valid body (status
absent, hence stored as `Pending`) against the empty store. -/
theorem c3_submit_binds_id_requester_status_witness :
    postRequests empUser validBody "r9" [] =
      (.created (some (mkStoredRec empUser "r9" validData)),
       [] ++ [mkStoredRec empUser "r9" validData]) ∧
    (mkStoredRec empUser "r9" validData).requestId = "r9" ∧
    (mkStoredRec empUser "r9" validData).requesterId = some empUser.id ∧
    (mkStoredRec empUser "r9" validData).status =
      validBody.status.getD "Pending" :=
  c3_submit_binds_id_requester_status empUser (Or.inl rfl) validBody "r9" []
    rfl validData rfl

/- ---------------- C6: end date before start date ---------------- -/

/-- A body whose `endDate` parses strictly earlier than `startDate` and whose
other fields are all valid. -/
def reversedDatesBody : CreateRequestInput :=
  { validBody with endDate := "2025-01-05" }

/-- A body whose `endDate` parses strictly earlier than `startDate` but whose
`empId` also violates its `min(1)` constraint. -/
def badEmpIdBody : CreateRequestInput :=
  { validBody with empId := "", endDate := "2025-01-05" }

/-- C6 counterexample: on a payload whose `endDate` parses strictly earlier
than `startDate` but which also has an empty `empId`, Submit fails with a
ValidationError whose field detail names only `empId` — the zod `.refine`
that reports the end-date violation runs only when the base object parse
succeeds, so the end-date field is not mentioned. -/
theorem c6_counterexample :
    (parseJsDate badEmpIdBody.endDate).isSome = true ∧
    (parseJsDate badEmpIdBody.startDate).isSome = true ∧
    (parseJsDate badEmpIdBody.endDate).getD 0 <
      (parseJsDate badEmpIdBody.startDate).getD 0 ∧
    postRequests empUser badEmpIdBody "r3" [] = (.badRequest ["empId"], []) ∧
    "endDate" ∉ ["empId"] :=
  ⟨rfl, rfl, by decide, rfl, by decide⟩

/-- C6 amended: for every Submit payload whose fields all pass their
per-field constraints and whose `endDate` parses as a calendar date strictly
earlier than `startDate`, Submit fails with a ValidationError whose field
detail is exactly the end-date field, and no record is persisted; the
comparison is on parsed calendar dates. -/
theorem c6_end_before_start_rejected
    (u : AuthedUser) (h : u.role = Role.employee ∨ u.role = Role.admin)
    (body : CreateRequestInput) (fid : String) (store : RequestStore)
    (hbase : createBaseFieldErrors body = [])
    (e s : Nat) (he : parseJsDate body.endDate = some e)
    (hs : parseJsDate body.startDate = some s) (hlt : e < s) :
    postRequests u body fid store = (.badRequest ["endDate"], store) := by
  have hrole := ensureRole_emp_admin h
  have href : jsEndAfterStart body.startDate body.endDate = false := by
    unfold jsEndAfterStart
    simp only [he, hs]
    exact decide_eq_false (not_le.mpr hlt)
  have hval : validateCreateRequest body = .error ["endDate"] := by
    unfold validateCreateRequest
    rw [hbase]
    simp [href]
  simp [postRequests, hrole, hval]

/-- Witness for the C6 amended theorem: the concrete otherwise-valid body
with `endDate` five days before `startDate` is rejected with exactly the
end-date field, and the empty store stays empty. -/
theorem c6_end_before_start_rejected_witness :
    postRequests empUser reversedDatesBody "r4" [] =
      (.badRequest ["endDate"], []) :=
  c6_end_before_start_rejected empUser (Or.inl rfl) reversedDatesBody "r4" []
    rfl (toDayNumber 2025 1 5) (toDayNumber 2025 1 10) rfl rfl (by decide)

/- ---------------- C8: work-log upload validation ---------------- -/

/-- A concrete multipart file part as multer presents it. -/
def sampleFile : UploadedFile :=
  { originalname := "report.pdf", filename := "1718000000000_report.pdf" }

/-- C8 counterexample: a work-log upload that carries a file but no
`signatureDataUrl` fails with 400 and persists no row, but the blob HAS
been stored — the multer middleware writes the file to disk before the
handler validates the signature, so an orphaned file remains, refuting
"neither a worklog row is persisted nor a blob is stored". -/
theorem c8_counterexample :
    postWorklogs empUser (some sampleFile) none "w1" "2025-06-15T10:00:00.000Z"
        { blobs := [], rows := [] } =
      (.badRequest "서명 데이터가 필요합니다",
       { blobs := ["1718000000000_report.pdf"], rows := [] }) ∧
    ({ blobs := ["1718000000000_report.pdf"], rows := [] } : WorklogState).blobs ≠
      ({ blobs := [], rows := [] } : WorklogState).blobs :=
  ⟨rfl, by decide⟩

/-- C8 amended: when the `signatureDataUrl` of a work-log upload is absent or
not a recognized PNG/JPEG data URL, the request fails with status 400 and no
worklog row is persisted; no blob is stored when the request carries no file
part, but when a file part is present its blob has already been written by
the upload middleware before validation (the file is orphaned). -/
theorem c8_upload_validation_no_row
    (u : AuthedUser) (file : Option UploadedFile) (sig : Option String)
    (fid nowIso : String) (st : WorklogState)
    (hsig : matchesSignatureRegex (sig.getD "") = false) :
    ((postWorklogs u file sig fid nowIso st).1 =
        .badRequest "파일이 필요합니다" ∨
     (postWorklogs u file sig fid nowIso st).1 =
        .badRequest "서명 데이터가 필요합니다") ∧
    (postWorklogs u file sig fid nowIso st).2.rows = st.rows ∧
    (postWorklogs u file sig fid nowIso st).2.blobs =
      st.blobs ++ file.elim [] (fun f => [f.filename]) := by
  cases file with
  | none => exact ⟨Or.inl rfl, rfl, by simp [postWorklogs]⟩
  | some f =>
    refine ⟨Or.inr ?_, ?_, ?_⟩ <;> simp [postWorklogs, hsig]

/-- Witness for the C8 amended theorem: upload with a file part and a missing
signature against the empty state. -/
theorem c8_upload_validation_no_row_witness :
    ((postWorklogs empUser (some sampleFile) none "w1" "t0"
        { blobs := [], rows := [] }).1 = .badRequest "파일이 필요합니다" ∨
     (postWorklogs empUser (some sampleFile) none "w1" "t0"
        { blobs := [], rows := [] }).1 = .badRequest "서명 데이터가 필요합니다") ∧
    (postWorklogs empUser (some sampleFile) none "w1" "t0"
        { blobs := [], rows := [] }).2.rows =
      ({ blobs := [], rows := [] } : WorklogState).rows ∧
    (postWorklogs empUser (some sampleFile) none "w1" "t0"
        { blobs := [], rows := [] }).2.blobs =
      ({ blobs := [], rows := [] } : WorklogState).blobs ++
        (some sampleFile).elim [] (fun f => [f.filename]) :=
  c8_upload_validation_no_row empUser (some sampleFile) none "w1" "t0"
    { blobs := [], rows := [] } rfl

/- ---------------- C9: ListRecent ---------------- -/

/-- A stored leave request whose `dateRequested` lies far in the future. -/
def futureRec : LeaveRequestRec :=
  { pendingRec with dateRequested := "2999-01-01" }

/-- C9 counterexample: on 2025-06-15 the manager's ListRecent returns the
record dated 2999-01-01, although that date does not fall within the last
calendar month (the SQL filter has no upper bound) — refuting "returns
exactly the records whose dateRequested falls within the last calendar
month". -/
theorem c9_counterexample :
    getRequestsRecent mgrUser ⟨2025, 6, 15⟩ [futureRec] =
      .okList [futureRec] ∧
    specWithinLastMonth ⟨2025, 6, 15⟩ futureRec.dateRequested = false :=
  ⟨rfl, rfl⟩

/-- C9 amended: ListRecent requires caller role in {manager, hr, admin}
(an employee caller is rejected with `Forbidden`) and returns exactly the
records whose `dateRequested` is on or after the cut date one month back
from now (JS `setMonth` semantics, same-day boundary, inclusive) — with no
upper bound, so future-dated records are included — ordered by
`dateRequested` descending. -/
theorem c9_recent_lower_bound_only
    (u : AuthedUser) (now : CivilDate) (store : RequestStore) :
    ((u.role = Role.manager ∨ u.role = Role.hr ∨ u.role = Role.admin) →
      getRequestsRecent u now store =
        .okList (sortByDateDesc (store.filter (fun r =>
          strLe (fmtDate (jsOneMonthBack now)) r.dateRequested))) ∧
      (∀ r, r ∈ sortByDateDesc (store.filter (fun r =>
          strLe (fmtDate (jsOneMonthBack now)) r.dateRequested)) ↔
        r ∈ store ∧
          strLe (fmtDate (jsOneMonthBack now)) r.dateRequested = true) ∧
      List.Pairwise DateGe (sortByDateDesc (store.filter (fun r =>
          strLe (fmtDate (jsOneMonthBack now)) r.dateRequested)))) ∧
    (u.role = Role.employee → getRequestsRecent u now store = .forbidden) := by
  constructor
  · intro h
    refine ⟨?_, ?_, pairwise_sortByDateDesc _⟩
    · simp [getRequestsRecent, ensureRole_recent h]
    · intro r
      simp only [mem_sortByDateDesc, List.mem_filter]
  · intro h
    simp [getRequestsRecent, ensureRole_recent_false h]

/-- Witness for the C9 amended theorem: the concrete employee caller is
rejected. -/
theorem c9_recent_lower_bound_only_witness :
    getRequestsRecent empUser ⟨2025, 6, 15⟩ [futureRec] = .forbidden :=
  (c9_recent_lower_bound_only empUser ⟨2025, 6, 15⟩ [futureRec]).2 rfl

end LeaveSys
